import Mathlib

/-!
Verification development for `isrutilities/sensorConstants.py`.

The Python module computes ISR sensor constants and theoretical beam patterns.
Pure numeric code is embedded over the real numbers; numpy arrays become
`List ℝ` (numpy broadcasting is modelled elementwise); the fallible site
dispatch becomes an `Option`-returning function.  The collaborator functions
imported from `mathutils` and `physConstants` (code of this repository that is
not among the sources under verification) are either modelled from the
specification (`v_C_0`, `rotcoords`) or kept as explicit function parameters
(`jinc`, `diric`, the planar projection used by the calibration lookup),
since no claim depends on their pointwise values beyond what the
specification states.
-/

/-! ### Constants and collaborators -/

/-- Modelled from the spec: `physConstants.v_C_0` (the `physConstants` module
is not under src/), the speed of light in m/s used to derive the wavenumber
and wavelength from the carrier frequency. -/
def v_C_0 : ℝ := 299792458

/-- The degrees-to-radians factor `d2r = np.pi/180.0` used throughout the
module. -/
noncomputable def d2r : ℝ := Real.pi / 180

/-- The float64 machine epsilon `np.finfo(Az.dtype).eps = 2 ** (-52)` used by
the azimuth snap in `AMISR_Patternadj` (line 114); the observation angles are
double precision arrays. -/
noncomputable def floatEps : ℝ := 1 / 2 ^ 52

/-- `AMISR_Patternadj` line 115: `Azs[np.abs(Azs) < 15*eps] = 0.`, the
elementwise snap of near-zero azimuths to exactly zero. -/
noncomputable def snapzero (x : ℝ) : ℝ := if |x| < 15 * floatEps then 0 else x

/-- `np.mod(x, y)` on reals: `x - y * ⌊x / y⌋`, used by
`AMISR_Patternadj` line 116 with `y = 360` (line 116: `Azs = np.mod(Azs, 360.)`). -/
noncomputable def npmod (x y : ℝ) : ℝ := x - y * ⌊x / y⌋

/-- Modelled from the spec: `mathutils.rotcoords` (the `mathutils` module is
not under src/).  Per spec section 4.1, `rotate(az, el, offsetAz, offsetEl)`
rotates a spherical direction by the two angular offsets, and as its stated
edge case snaps azimuth results within a few machine epsilons of zero exactly
to zero and normalizes all azimuth results into [0, 360) degrees; the
elevation is offset by the elevation offset. -/
noncomputable def rotcoords (az el offAz offEl : ℝ) : ℝ × ℝ :=
  (npmod (snapzero (az + offAz)) 360, el + offEl)

/-! ### getConst: frequency-derived constants and site dispatch -/

/-- `getConst` line 76: `Ksens = freq*2*np.pi/v_C_0`. -/
noncomputable def getConst_k (freq : ℝ) : ℝ := freq * 2 * Real.pi / v_C_0

/-- `getConst` line 77: `lamb = Ksens/2.0/np.pi`. -/
noncomputable def getConst_lamb (freq : ℝ) : ℝ := getConst_k freq / 2 / Real.pi

/-- `getConst` line 91: the `fs` entry of the returned dictionary, `1/ts`. -/
noncomputable def getConst_fs (ts : ℝ) : ℝ := 1 / ts

/-- `getConst` line 94: the `t_s` entry of the returned dictionary, `ts`. -/
def getConst_t_s (ts : ℝ) : ℝ := ts

/-- Embedding of the Python `typestr.lower()` call: lowercase a string by
mapping `Char.toLower` over its character data. -/
def strLower (s : String) : String := ⟨s.data.map Char.toLower⟩

/-- Tags for the four antenna-pattern functions that `getConst` can select. -/
inductive ArrayFuncTag where
  | amisr_adj
  | millstone_m
  | millstone_z
  | sond
deriving DecidableEq

/-- `getConst` lines 51-65: the `if/elif` dispatch on the lowercased site
name, selecting a pattern function and a parameter file.  The Python chain
has no `else` branch, so an unrecognized name leaves `h5filename` unbound and
the subsequent `tables.open_file` raises; that fall-through is `none` here,
and the function never produces a default descriptor. -/
def getConst_dispatch (typestr : String) : Option (ArrayFuncTag × String) :=
  if strLower typestr = "risr" ∨ strLower typestr = "risr-n" then
    some (ArrayFuncTag.amisr_adj, "RISR_PARAMS.h5")
  else if strLower typestr = "pfisr" then
    some (ArrayFuncTag.amisr_adj, "PFISR_PARAMS.h5")
  else if strLower typestr = "millstone" then
    some (ArrayFuncTag.millstone_m, "Millstone_PARAMS.h5")
  else if strLower typestr = "millstonez" then
    some (ArrayFuncTag.millstone_z, "Millstone_PARAMS.h5")
  else if strLower typestr = "sondrestrom" then
    some (ArrayFuncTag.sond, "Sondrestrom_PARAMS.h5")
  else
    none

/-! ### Calibration lookup (getConst lines 82-88)

`scipy.interpolate.griddata(points, ksys, (xvec, yvec), method='nearest')` is
nearest-neighbor lookup in the projected plane.  It is embedded generically
over any linear ordered field so that it is executable over `ℚ` while the
claims can also be read over `ℝ`; the planar projection `angles2xy`
(`mathutils`, not under src/) is an explicit function parameter applied
identically to the calibration table and to the query points, exactly as
`getConst` does on lines 82 and 85. -/

/-- Squared Euclidean distance in the projected plane. -/
def sqdist {α : Type} [LinearOrderedField α] (p q : α × α) : α :=
  (p.1 - q.1) ^ 2 + (p.2 - q.2) ^ 2

/-- Scan for the sample nearest to the query `q`, keeping the earliest sample
on ties (the model of the KD-tree query behind `method='nearest'`). -/
def nearestFold {α : Type} [LinearOrderedField α] (q : α × α) :
    (α × α) × α → List ((α × α) × α) → (α × α) × α
  | best, [] => best
  | best, pv :: rest =>
    nearestFold q (if sqdist pv.1 q < sqdist best.1 q then pv else best) rest

/-- Nearest-neighbor core over a paired list of (point, value) samples. -/
def griddata_aux {α : Type} [LinearOrderedField α] (q : α × α) :
    List ((α × α) × α) → α
  | [] => 0
  | p :: rest => (nearestFold q p rest).2

/-- `griddata(points, vals, q, method='nearest')` for a single query point:
the value of the calibration sample nearest to `q` in the projected plane.
An empty calibration table is a fatal precondition violation in the source
(scipy raises); the `0` returned here on the empty list is never reached
under the nonemptiness hypotheses of the theorems below. -/
def griddata_nearest {α : Type} [LinearOrderedField α] (points : List (α × α))
    (vals : List α) (q : α × α) : α :=
  griddata_aux q (points.zip vals)

/-- `getConst` lines 82-83: project the calibration-table angles and stack
them into the sample-point list. -/
def angles2points {α : Type} (proj : α × α → α × α) (az el : List α) :
    List (α × α) :=
  (az.zip el).map proj

/-- `getConst` lines 82-86 for one query angle pair: project the table and
the query with the same planar projection and look up the nearest
calibration system constant. -/
def systemConstant {α : Type} [LinearOrderedField α] (proj : α × α → α × α)
    (az el ksys : List α) (q : α × α) : α :=
  griddata_nearest (angles2points proj az el) ksys (proj q)

/-- `getConst` lines 84-88: with no query angles the `Ksys` field is the
explicit absent marker `None`; with query angles it is one nearest-neighbor
system constant per query angle. -/
def getConst_ksysout {α : Type} [LinearOrderedField α] (proj : α × α → α × α)
    (az el ksys : List α) : Option (List (α × α)) → Option (List α)
  | none => none
  | some qs => some (qs.map (fun q => systemConstant proj az el ksys q))

/-! ### Circular dish model (Circ_Ant_Pattern and the dish sites) -/

/-- `Circ_Ant_Pattern` lines 223-226 at one elevation coordinate `el`
(zenith-referenced, radians): `Patout = (2.*r/lamb)**2 * np.abs(jinc((2.*r/lamb)*np.sin(EL)))`,
then `Patout[EL<0] = 0`, then division by
`normfactor = (2.*r/lamb)**2 * jinc(0.)`.  The collaborator `jinc`
(`mathutils`, not under src/) is a function parameter. -/
noncomputable def Circ_Ant_Pattern_val (jinc : ℝ → ℝ) (el r lamb : ℝ) : ℝ :=
  (if el < 0 then 0
   else (2 * r / lamb) ^ 2 * |jinc ((2 * r / lamb) * Real.sin el)|) /
    ((2 * r / lamb) ^ 2 * jinc 0)

/-- `Circ_Ant_Pattern` on an elevation array. -/
noncomputable def Circ_Ant_Pattern (jinc : ℝ → ℝ) (EL : List ℝ) (r lamb : ℝ) :
    List ℝ :=
  EL.map (fun el => Circ_Ant_Pattern_val jinc el r lamb)

/-- `Sond_Pattern` lines 144-150 at one observation direction: radius 30 m,
wavelength `v_C_0/1.2e9`; rotate by `(-Az0, El0-90)`, convert the rotated
elevation to the zenith-referenced angle `(90-Eladj)*d2r` and evaluate the
dish pattern. -/
noncomputable def Sond_Pattern_val (jinc : ℝ → ℝ) (az el az0 el0 : ℝ) : ℝ :=
  Circ_Ant_Pattern_val jinc ((90 - (rotcoords az el (-az0) (el0 - 90)).2) * d2r)
    30 (v_C_0 / 1200000000)

/-- `Sond_Pattern` on observation-angle arrays. -/
noncomputable def Sond_Pattern (jinc : ℝ → ℝ) (Az El : List ℝ)
    (Az0 El0 : ℝ) (Angleoffset : ℝ × ℝ) : List ℝ :=
  (Az.zip El).map (fun p => Sond_Pattern_val jinc p.1 p.2 Az0 El0)

/-- `Millstone_Pattern_Z` lines 170-175: radius 33.5 m, wavelength
`v_C_0/4.4e8`; the rotation is `rotcoords(Az, El, 0.0, 0.)` with a fixed zero
offset, and the arguments `Az0`, `El0` and `Angleoffset` are never read. -/
noncomputable def Millstone_Pattern_Z (jinc : ℝ → ℝ) (Az El : List ℝ)
    (Az0 El0 : ℝ) (Angleoffset : ℝ × ℝ) : List ℝ :=
  ((Az.zip El).map (fun p => (rotcoords p.1 p.2 0 0).2)).map
    (fun e => Circ_Ant_Pattern_val jinc ((90 - e) * d2r) 33.5 (v_C_0 / 440000000))

/-- `Millstone_Pattern_M` lines 195-200 at one observation direction:
radius 23 m, wavelength `v_C_0/4.4e8`, rotation by `(-Az0, El0-90)`. -/
noncomputable def Millstone_Pattern_M_val (jinc : ℝ → ℝ) (az el az0 el0 : ℝ) : ℝ :=
  Circ_Ant_Pattern_val jinc ((90 - (rotcoords az el (-az0) (el0 - 90)).2) * d2r)
    23 (v_C_0 / 440000000)

/-! ### Planar phased-array model (AMISR_Pattern and AMISR_Patternadj) -/

/-- `AMISR_Pattern` lines 270-272 at one zenith-referenced elevation `el`
(radians): `elementpower = (1.0/2.0)*(1.0+(np.cos(EL))**2)` followed by
`elementpower[EL<0] = 0.`. -/
noncomputable def AMISR_Pattern_elementpower (el : ℝ) : ℝ :=
  if el < 0 then 0 else (1 / 2) * (1 + Real.cos el ^ 2)

/-- `AMISR_Pattern` lines 263-284: the complex array factor
`AF = (1.0+np.exp(1j*(phiy/2.+phix)))*diric(2.0*phix, mtot/2.0)*diric(phiy, ntot)`
with `f0 = 440e6`, `lam0 = v_C_0/f0`, `k0 = 2*pi/lam0`, spacings
`dx = 0.4343`, `dy = 0.4958`, `m = 8`, `mtot = 8*m`, `n = 16`, `ntot = n*4`.
The Dirichlet-kernel collaborator `diric` (`mathutils`, not under src/) is a
function parameter. -/
noncomputable def AMISR_Pattern_AF (diric : ℝ → ℝ → ℝ) (az el az0 el0 : ℝ) : ℂ :=
  let f0 : ℝ := 440000000
  let lam0 : ℝ := v_C_0 / f0
  let k0 : ℝ := 2 * Real.pi / lam0
  let dx : ℝ := 0.4343
  let dy : ℝ := 0.4958
  let m : ℝ := 8
  let mtot : ℝ := 8 * m
  let n : ℝ := 16
  let ntot : ℝ := n * 4
  let phix : ℝ := k0 * dx * (Real.sin el * Real.cos az - Real.sin el0 * Real.cos az0)
  let phiy : ℝ := k0 * dy * (Real.sin el * Real.sin az - Real.sin el0 * Real.sin az0)
  (1 + Complex.exp (Complex.I * Complex.ofReal (phiy / 2 + phix))) *
    Complex.ofReal (diric (2 * phix) (mtot / 2)) * Complex.ofReal (diric phiy ntot)

/-- `AMISR_Pattern` line 285: `arrayfac = abs(AF)**2`. -/
noncomputable def AMISR_Pattern_arrayfac (diric : ℝ → ℝ → ℝ) (az el az0 el0 : ℝ) : ℝ :=
  Complex.abs (AMISR_Pattern_AF diric az el az0 el0) ^ 2

/-- `AMISR_Pattern` line 286: `Patout = elementpower*arrayfac` at one
observation direction (azimuth and zenith-referenced elevation in radians). -/
noncomputable def AMISR_Pattern_val (diric : ℝ → ℝ → ℝ) (az el az0 el0 : ℝ) : ℝ :=
  AMISR_Pattern_elementpower el * AMISR_Pattern_arrayfac diric az el az0 el0

/-- `AMISR_Patternadj` lines 113-116: rotate the observation directions by
the negated array-face offset, snap near-zero azimuths to exactly zero and
wrap all azimuths into [0, 360); the result is in degrees. -/
noncomputable def AMISR_Patternadj_Azs (Az El : List ℝ) (aoff : ℝ × ℝ) : List ℝ :=
  (Az.zip El).map
    (fun p => npmod (snapzero ((rotcoords p.1 p.2 (-aoff.1) (-aoff.2)).1)) 360)

/-- `AMISR_Patternadj` line 113: the rotated observation elevations. -/
noncomputable def AMISR_Patternadj_Els (Az El : List ℝ) (aoff : ℝ × ℝ) : List ℝ :=
  (Az.zip El).map (fun p => (rotcoords p.1 p.2 (-aoff.1) (-aoff.2)).2)

/-- `AMISR_Patternadj` line 118: the rotated pointing azimuth `Az0s`, to
which neither the snap nor the modulo of lines 115-116 is applied. -/
noncomputable def AMISR_Patternadj_Az0s (Az0 El0 : ℝ) (aoff : ℝ × ℝ) : ℝ :=
  (rotcoords Az0 El0 (-aoff.1) (-aoff.2)).1

/-- `AMISR_Patternadj` line 118: the rotated pointing elevation `El0s`. -/
noncomputable def AMISR_Patternadj_El0s (Az0 El0 : ℝ) (aoff : ℝ × ℝ) : ℝ :=
  (rotcoords Az0 El0 (-aoff.1) (-aoff.2)).2

/-- `AMISR_Patternadj` lines 111-123: convert the adjusted observation
azimuths, the zenith-referenced elevations `(90-Els)*d2r`, and the unadjusted
pointing direction to radians and evaluate `AMISR_Pattern` elementwise. -/
noncomputable def AMISR_Patternadj (diric : ℝ → ℝ → ℝ) (Az El : List ℝ)
    (Az0 El0 : ℝ) (aoff : ℝ × ℝ) : List ℝ :=
  ((AMISR_Patternadj_Azs Az El aoff).zip (AMISR_Patternadj_Els Az El aoff)).map
    (fun p => AMISR_Pattern_val diric (p.1 * d2r) ((90 - p.2) * d2r)
      (AMISR_Patternadj_Az0s Az0 El0 aoff * d2r)
      ((90 - AMISR_Patternadj_El0s Az0 El0 aoff) * d2r))

/-! ### Helper lemmas -/

lemma npmod_mem_Ico (x : ℝ) {y : ℝ} (hy : 0 < y) :
    0 ≤ npmod x y ∧ npmod x y < y := by
  have hy0 : y ≠ 0 := ne_of_gt hy
  have h1 : npmod x y = y * Int.fract (x / y) := by
    unfold npmod Int.fract
    field_simp
  constructor
  · rw [h1]
    exact mul_nonneg hy.le (Int.fract_nonneg _)
  · rw [h1]
    calc y * Int.fract (x / y) < y * 1 :=
          mul_lt_mul_of_pos_left (Int.fract_lt_one _) hy
    _ = y := mul_one y

lemma npmod_zero_left (y : ℝ) : npmod 0 y = 0 := by
  simp [npmod]

lemma sqdist_nonneg {α : Type} [LinearOrderedField α] (p q : α × α) :
    0 ≤ sqdist p q := by
  unfold sqdist
  positivity

lemma sqdist_self {α : Type} [LinearOrderedField α] (p : α × α) :
    sqdist p p = 0 := by
  unfold sqdist
  ring

lemma sqdist_eq_zero_iff {α : Type} [LinearOrderedField α] {p q : α × α} :
    sqdist p q = 0 ↔ p = q := by
  unfold sqdist
  constructor
  · intro h
    have h1 : (p.1 - q.1) ^ 2 = 0 :=
      le_antisymm (by nlinarith [sq_nonneg (p.2 - q.2)]) (sq_nonneg _)
    have h2 : (p.2 - q.2) ^ 2 = 0 :=
      le_antisymm (by nlinarith [sq_nonneg (p.1 - q.1)]) (sq_nonneg _)
    have e1 : p.1 = q.1 := sub_eq_zero.mp (sq_eq_zero_iff.mp h1)
    have e2 : p.2 = q.2 := sub_eq_zero.mp (sq_eq_zero_iff.mp h2)
    exact Prod.ext e1 e2
  · rintro rfl
    ring

lemma nearestFold_mem {α : Type} [LinearOrderedField α] (q : α × α)
    (b : (α × α) × α) (l : List ((α × α) × α)) :
    nearestFold q b l = b ∨ nearestFold q b l ∈ l := by
  induction l generalizing b with
  | nil => exact Or.inl rfl
  | cons pv rest ih =>
    rcases ih (if sqdist pv.1 q < sqdist b.1 q then pv else b) with h | h
    · simp only [nearestFold]
      rw [h]
      split_ifs with hc
      · exact Or.inr (List.mem_cons_self _ _)
      · exact Or.inl rfl
    · simp only [nearestFold]
      exact Or.inr (List.mem_cons_of_mem _ h)

lemma nearestFold_min {α : Type} [LinearOrderedField α] (q : α × α)
    (b : (α × α) × α) (l : List ((α × α) × α)) :
    sqdist (nearestFold q b l).1 q ≤ sqdist b.1 q ∧
      ∀ x ∈ l, sqdist (nearestFold q b l).1 q ≤ sqdist x.1 q := by
  induction l generalizing b with
  | nil => exact ⟨le_refl _, by simp⟩
  | cons pv rest ih =>
    obtain ⟨ih1, ih2⟩ := ih (if sqdist pv.1 q < sqdist b.1 q then pv else b)
    constructor
    · simp only [nearestFold]
      refine le_trans ih1 ?_
      split_ifs with hc
      · exact le_of_lt hc
      · exact le_refl _
    · intro x hx
      simp only [nearestFold]
      rcases List.mem_cons.mp hx with rfl | hx2
      · refine le_trans ih1 ?_
        split_ifs with hc
        · exact le_refl _
        · exact not_lt.mp hc
      · exact ih2 x hx2

lemma nearestFold_eq_of_exact {α : Type} [LinearOrderedField α] (q : α × α)
    (b : (α × α) × α) (l : List ((α × α) × α)) (x : (α × α) × α)
    (hx : x = b ∨ x ∈ l) (hxq : x.1 = q)
    (huniq : ∀ y, (y = b ∨ y ∈ l) → y.1 = q → y = x) :
    nearestFold q b l = x := by
  have hmem := nearestFold_mem q b l
  have hmin := nearestFold_min q b l
  have hle : sqdist (nearestFold q b l).1 q ≤ 0 := by
    rcases hx with h | h
    · have h3 : sqdist b.1 q = 0 := by
        rw [← h, hxq, sqdist_self]
      have h2 := hmin.1
      rw [h3] at h2
      exact h2
    · have h2 := hmin.2 x h
      rw [hxq, sqdist_self] at h2
      exact h2
  have h0 : sqdist (nearestFold q b l).1 q = 0 :=
    le_antisymm hle (sqdist_nonneg _ _)
  exact huniq _ hmem (sqdist_eq_zero_iff.mp h0)

lemma griddata_nearest_exact {α : Type} [LinearOrderedField α]
    (points : List (α × α)) (vals : List α) (q : α × α) (i : ℕ)
    (hip : i < points.length) (hiv : i < vals.length)
    (hq : points[i] = q)
    (huniq : ∀ j, (hj : j < points.length) → points[j] = q → j = i) :
    griddata_nearest points vals q = vals[i] := by
  have hizip : i < (points.zip vals).length := by
    rw [List.length_zip]
    exact lt_min hip hiv
  have hxget : (points.zip vals)[i] = (points[i], vals[i]) := List.getElem_zip
  obtain ⟨p, rest, hL⟩ : ∃ p rest, points.zip vals = p :: rest := by
    cases hzz : points.zip vals with
    | nil => rw [hzz] at hizip; simp at hizip
    | cons p rest => exact ⟨p, rest, rfl⟩
  have hxmem : (points[i], vals[i]) ∈ points.zip vals := by
    rw [← hxget]
    exact List.getElem_mem _
  have huniq2 : ∀ y, (y = p ∨ y ∈ rest) → y.1 = q → y = (points[i], vals[i]) := by
    intro y hy hyq
    have hymem : y ∈ points.zip vals := by
      rw [hL]
      rcases hy with rfl | hy2
      · exact List.mem_cons_self _ _
      · exact List.mem_cons_of_mem _ hy2
    obtain ⟨⟨j, hj⟩, hjy⟩ := List.mem_iff_get.mp hymem
    have hjp : j < points.length := List.lt_length_left_of_zip hj
    have hjv : j < vals.length := List.lt_length_right_of_zip hj
    have hyget : y = (points[j], vals[j]) := by
      rw [← hjy, List.get_eq_getElem]
      exact List.getElem_zip
    have hj1 : points[j] = q := by
      rw [hyget] at hyq
      exact hyq
    have hji : j = i := huniq j hjp hj1
    subst hji
    exact hyget
  have hfold : nearestFold q p rest = (points[i], vals[i]) := by
    apply nearestFold_eq_of_exact
    · rw [hL] at hxmem
      exact List.mem_cons.mp hxmem
    · exact hq
    · exact huniq2
  have hgd : griddata_nearest points vals q = (nearestFold q p rest).2 := by
    unfold griddata_nearest
    rw [hL]
    rfl
  rw [hgd, hfold]

lemma griddata_nearest_mem {α : Type} [LinearOrderedField α]
    (points : List (α × α)) (vals : List α) (q : α × α)
    (hne : points.zip vals ≠ []) :
    griddata_nearest points vals q ∈ vals := by
  obtain ⟨p, rest, hL⟩ : ∃ p rest, points.zip vals = p :: rest := by
    cases hzz : points.zip vals with
    | nil => exact absurd hzz hne
    | cons p rest => exact ⟨p, rest, rfl⟩
  have hmem : nearestFold q p rest ∈ points.zip vals := by
    rw [hL]
    rcases nearestFold_mem q p rest with h | h
    · rw [h]
      exact List.mem_cons_self _ _
    · exact List.mem_cons_of_mem _ h
  have h2 := (List.of_mem_zip hmem).2
  have h3 : griddata_nearest points vals q = (nearestFold q p rest).2 := by
    unfold griddata_nearest
    rw [hL]
    rfl
  rw [h3]
  exact h2

lemma snapzero_self_zero : snapzero 0 = 0 := by
  simp [snapzero]

lemma rotcoords_az_zero : (rotcoords 0 0 (-0) (-0)).1 = 0 := by
  simp [rotcoords, snapzero, npmod]

/-! ### Claim theorems -/

/-- C1: the sensor constants returned by `getConst` are NOT mutually
consistent: while the wavenumber is `2*pi*freq/v_C_0` as the claim states and
the sampling frequency is the reciprocal of the sampling period, the `lamb`
entry evaluates to `freq / v_C_0`, the reciprocal of the wavelength
`v_C_0 / freq`, so `lamb = c/f` and `k = 2*pi/lamb` both fail (shown here at
the carrier frequency 449 MHz that the commented-out constants in the source
record with `lamb = 0.6677`, `k = 9.4`). -/
theorem getConst_wavelength_bug :
    getConst_lamb 449000000 = 449000000 / v_C_0 ∧
    (449000000 : ℝ) / v_C_0 ≠ v_C_0 / 449000000 ∧
    getConst_k 449000000 = 2 * Real.pi * 449000000 / v_C_0 ∧
    getConst_fs (1 / 50000) * getConst_t_s (1 / 50000) = 1 := by
  have hpi : Real.pi ≠ 0 := Real.pi_ne_zero
  have hc : v_C_0 ≠ 0 := by norm_num [v_C_0]
  refine ⟨?_, ?_, ?_, ?_⟩
  · unfold getConst_lamb getConst_k
    field_simp
    ring
  · intro h
    rw [div_eq_div_iff hc (by norm_num : (449000000 : ℝ) ≠ 0)] at h
    norm_num [v_C_0] at h
  · unfold getConst_k
    ring
  · unfold getConst_fs getConst_t_s
    norm_num

/-- C2: the claimed below-horizon zeroing does not happen.  At the
Sondrestrom inputs az = 0, el = -10 (degrees), az0 = 0, el0 = 90, the rotated
elevation is -10, strictly below the local horizon, yet the pattern value is
not zeroed: the guard `Patout[EL<0] = 0` tests the zenith-referenced angle
`EL = (90-Eladj)*d2r = 100*pi/180 > 0`, so the un-zeroed jinc expression is
returned (evaluated here with the kernel `fun _ => 1`, for which the
returned value is exactly 1, not the 0 the claim requires; the zero branch
is independent of the kernel). -/
theorem sond_below_horizon_not_zeroed :
    (rotcoords 0 (-10) (-0) (90 - 90)).2 < 0 ∧
    Sond_Pattern_val (fun _ => 1) 0 (-10) 0 90 = 1 := by
  have hd2r : (0:ℝ) < d2r := by
    unfold d2r
    positivity
  constructor
  · norm_num [rotcoords]
  · unfold Sond_Pattern_val
    have harg : (90 - (rotcoords (0:ℝ) (-10) (-0) (90 - 90)).2) * d2r = 100 * d2r := by
      norm_num [rotcoords]
    rw [harg]
    unfold Circ_Ant_Pattern_val
    rw [if_neg (not_lt.mpr (le_of_lt (mul_pos (by norm_num : (0:ℝ) < 100) hd2r)))]
    norm_num [v_C_0]

/-- C3: the circular-dish pattern divides by the boresight value
`(2r/lamb)^2 * jinc(0)`, so at zenith-referenced elevation zero it returns
exactly 1 for every positive radius and wavelength (the `jinc` collaborator
has a positive analytic-limit value at 0 per the spec). -/
theorem circ_pattern_boresight_unity (j : ℝ → ℝ) (r lamb : ℝ)
    (hr : 0 < r) (hl : 0 < lamb) (hj : 0 < j 0) :
    Circ_Ant_Pattern_val j 0 r lamb = 1 := by
  unfold Circ_Ant_Pattern_val
  rw [if_neg (lt_irrefl (0:ℝ)), Real.sin_zero, mul_zero, abs_of_pos hj]
  have hK : (0:ℝ) < 2 * r / lamb := by positivity
  exact div_self (ne_of_gt (mul_pos (pow_pos hK 2) hj))

/-- C3 witness: boresight unity at the Sondrestrom radius 30 m with a
concrete positive kernel. -/
theorem circ_pattern_boresight_unity_witness :
    (0:ℝ) < 30 ∧ (0:ℝ) < 1 ∧ (0:ℝ) < (fun _ : ℝ => (1:ℝ)) 0 ∧
      Circ_Ant_Pattern_val (fun _ => 1) 0 30 1 = 1 :=
  ⟨by norm_num, by norm_num, by norm_num,
    circ_pattern_boresight_unity (fun _ => 1) 30 1 (by norm_num) (by norm_num)
      (by norm_num)⟩

/-- C4: a site name whose lowercasing is not one of the six recognized names
makes `getConst` fail (the dispatch returns `none`, modelling the unbound
`h5filename` and the ensuing exception) instead of returning a default
descriptor. -/
theorem getConst_unknown_site_none (s : String)
    (h : strLower s ∉
      (["risr", "risr-n", "pfisr", "millstone", "millstonez", "sondrestrom"] : List String)) :
    getConst_dispatch s = none := by
  simp only [List.mem_cons, List.not_mem_nil, or_false, not_or] at h
  obtain ⟨h1, h2, h3, h4, h5, h6⟩ := h
  simp [getConst_dispatch, h1, h2, h3, h4, h5, h6]

/-- C4 witness: the unknown site name "foo" is rejected. -/
theorem getConst_unknown_site_none_witness :
    strLower "foo" ∉
      (["risr", "risr-n", "pfisr", "millstone", "millstonez", "sondrestrom"] : List String) ∧
    getConst_dispatch "foo" = none :=
  ⟨by decide, getConst_unknown_site_none "foo" (by decide)⟩

/-- C5: in `AMISR_Pattern` the relative power is the element power times the
squared magnitude of the complex array factor; the element power is
`0.5*(1+cos(EL)^2)` for nonnegative zenith-referenced elevation and is
exactly 0 (making the whole pattern 0) wherever the zenith-referenced
elevation value is negative, for any azimuth and any Dirichlet kernel. -/
theorem amisr_pattern_element_decomp (d : ℝ → ℝ → ℝ) (az el az0 el0 : ℝ) :
    AMISR_Pattern_val d az el az0 el0 =
      AMISR_Pattern_elementpower el * AMISR_Pattern_arrayfac d az el az0 el0 ∧
    (el < 0 → AMISR_Pattern_elementpower el = 0 ∧
      AMISR_Pattern_val d az el az0 el0 = 0) ∧
    (0 ≤ el → AMISR_Pattern_elementpower el = 1 / 2 * (1 + Real.cos el ^ 2)) := by
  refine ⟨rfl, fun h => ?_, fun h => ?_⟩
  · have he : AMISR_Pattern_elementpower el = 0 := by
      unfold AMISR_Pattern_elementpower
      rw [if_pos h]
    refine ⟨he, ?_⟩
    unfold AMISR_Pattern_val
    rw [he, zero_mul]
  · unfold AMISR_Pattern_elementpower
    rw [if_neg (not_lt.mpr h)]

/-- C5 witness: at zenith-referenced elevation -1 the pattern vanishes, and
at elevation 0 the element power takes the cosine form. -/
theorem amisr_pattern_element_decomp_witness :
    AMISR_Pattern_val (fun _ _ => 1) 0 (-1) 0 0 = 0 ∧
    AMISR_Pattern_elementpower 0 = 1 / 2 * (1 + Real.cos 0 ^ 2) :=
  ⟨((amisr_pattern_element_decomp (fun _ _ => 1) 0 (-1) 0 0).2.1 (by norm_num)).2,
    (amisr_pattern_element_decomp (fun _ _ => 1) 0 0 0 0).2.2 (by norm_num)⟩

/-- C6: a query angle pair exactly equal to the i-th calibration sample point
(and projecting, like it, to a point no other sample projects to) receives
exactly the i-th system constant: nearest-neighbor lookup is exact on sample
points, with no extrapolation weighting. -/
theorem ksys_nearest_exact {α : Type} [LinearOrderedField α]
    (f : α × α → α × α) (az el ksys : List α) (i : ℕ)
    (ha : i < az.length) (he : i < el.length) (hk : i < ksys.length)
    (huniq : ∀ j, (hja : j < az.length) → (hje : j < el.length) → j ≠ i →
      f (az[j], el[j]) ≠ f (az[i], el[i])) :
    systemConstant f az el ksys (az[i], el[i]) = ksys[i] := by
  unfold systemConstant
  have hpts : i < (angles2points f az el).length := by
    unfold angles2points
    rw [List.length_map, List.length_zip]
    exact lt_min ha he
  have hgeti : (angles2points f az el)[i] = f (az[i], el[i]) := by
    unfold angles2points
    rw [List.getElem_map, List.getElem_zip]
  apply griddata_nearest_exact _ _ _ i hpts hk hgeti
  intro j hj hjq
  by_contra hne
  have hja : j < az.length := by
    unfold angles2points at hj
    rw [List.length_map, List.length_zip] at hj
    exact lt_of_lt_of_le hj (min_le_left _ _)
  have hje : j < el.length := by
    unfold angles2points at hj
    rw [List.length_map, List.length_zip] at hj
    exact lt_of_lt_of_le hj (min_le_right _ _)
  have hgetj : (angles2points f az el)[j] = f (az[j], el[j]) := by
    unfold angles2points
    rw [List.getElem_map, List.getElem_zip]
  rw [hgetj] at hjq
  exact huniq j hja hje hne hjq

/-- C6 witness: a two-sample table over ℚ with the identity projection; the
query (0, 0) equals the first sample and gets its constant 5 exactly. -/
theorem ksys_nearest_exact_witness :
    systemConstant (fun p : ℚ × ℚ => p) [0, 3] [0, 4] [5, 7] (0, 0) = 5 := by
  have h := ksys_nearest_exact (fun p : ℚ × ℚ => p) [0, 3] [0, 4] [5, 7] 0
    (by norm_num) (by norm_num) (by norm_num) ?_
  · simpa using h
  · intro j hja hje hne
    have hj1 : j = 1 := by
      simp only [List.length_cons, List.length_nil] at hja
      omega
    subst hj1
    norm_num [Prod.ext_iff]

/-- C7: with no query angles `getConst` leaves the per-beam system constant
absent (`none`, the model of the Python `None`); with query angles it
returns one nearest-neighbor system constant per query angle, each drawn
from the calibration table. -/
theorem getConst_ksys_absent_or_lookup {α : Type} [LinearOrderedField α]
    (f : α × α → α × α) (az el ksys : List α)
    (h1 : az.length = el.length) (h2 : el.length = ksys.length)
    (h3 : ksys ≠ []) :
    getConst_ksysout f az el ksys none = none ∧
    ∀ qs : List (α × α), ∃ l : List α,
      getConst_ksysout f az el ksys (some qs) = some l ∧
      l.length = qs.length ∧ ∀ x ∈ l, x ∈ ksys := by
  refine ⟨rfl, fun qs =>
    ⟨qs.map (fun q => systemConstant f az el ksys q), rfl, by simp, ?_⟩⟩
  intro x hx
  obtain ⟨q, hq, rfl⟩ := List.mem_map.mp hx
  unfold systemConstant
  apply griddata_nearest_mem
  have hlen : (angles2points f az el).length = ksys.length := by
    unfold angles2points
    rw [List.length_map, List.length_zip, h1, min_self, h2]
  intro hcon
  have hcl := congrArg List.length hcon
  rw [List.length_zip, hlen, min_self, List.length_nil] at hcl
  exact h3 (List.length_eq_zero.mp hcl)

/-- C7 witness: a one-sample table over ℚ; the absent marker is returned
without query angles, and a single query angle yields a single constant from
the table. -/
theorem getConst_ksys_absent_or_lookup_witness :
    getConst_ksysout (fun p : ℚ × ℚ => p) [0] [0] [5] none = none ∧
    ∃ l : List ℚ,
      getConst_ksysout (fun p : ℚ × ℚ => p) [0] [0] [5] (some [(1, 2)]) = some l ∧
      l.length = 1 ∧ ∀ x ∈ l, x ∈ ([5] : List ℚ) := by
  have h := getConst_ksys_absent_or_lookup (fun p : ℚ × ℚ => p) [0] [0] [5]
    (by norm_num) (by norm_num) (by simp)
  obtain ⟨l, hl1, hl2, hl3⟩ := h.2 [(1, 2)]
  exact ⟨h.1, l, hl1, by simpa using hl2, hl3⟩

/-- C8: in `AMISR_Patternadj` each observation azimuth handed to the pattern
is the rotated azimuth with the snap and the modulo applied: it equals
`np.mod(snap(rotated), 360)`, lies in [0, 360), and is exactly 0 whenever the
rotated azimuth is within 15 machine epsilons of zero. -/
theorem patternadj_azimuth_snap_mod (Az El : List ℝ) (a : ℝ × ℝ) (j : ℕ)
    (hj : j < (Az.zip El).length) :
    (AMISR_Patternadj_Azs Az El a).getD j 0 =
      npmod (snapzero ((rotcoords (Az.zip El)[j].1 (Az.zip El)[j].2 (-a.1) (-a.2)).1)) 360 ∧
    (0 ≤ (AMISR_Patternadj_Azs Az El a).getD j 0 ∧
      (AMISR_Patternadj_Azs Az El a).getD j 0 < 360) ∧
    (|(rotcoords (Az.zip El)[j].1 (Az.zip El)[j].2 (-a.1) (-a.2)).1| < 15 * floatEps →
      (AMISR_Patternadj_Azs Az El a).getD j 0 = 0) := by
  have hlen : j < (AMISR_Patternadj_Azs Az El a).length := by
    unfold AMISR_Patternadj_Azs
    rw [List.length_map]
    exact hj
  have hget : (AMISR_Patternadj_Azs Az El a).getD j 0 =
      npmod (snapzero ((rotcoords (Az.zip El)[j].1 (Az.zip El)[j].2 (-a.1) (-a.2)).1)) 360 := by
    rw [List.getD_eq_getElem _ _ hlen]
    unfold AMISR_Patternadj_Azs
    rw [List.getElem_map]
  refine ⟨hget, ?_, ?_⟩
  · rw [hget]
    exact npmod_mem_Ico _ (by norm_num)
  · intro hsnap
    rw [hget]
    unfold snapzero
    rw [if_pos hsnap]
    exact npmod_zero_left 360

/-- C8 witness: a single observation direction at azimuth 0 with a zero
array-face offset; the rotated azimuth is within the snap window and the
azimuth handed to the pattern is exactly 0 and lies in [0, 360). -/
theorem patternadj_azimuth_snap_mod_witness :
    (0 ≤ (AMISR_Patternadj_Azs [0] [0] ((0:ℝ), (0:ℝ))).getD 0 0 ∧
      (AMISR_Patternadj_Azs [0] [0] ((0:ℝ), (0:ℝ))).getD 0 0 < 360) ∧
    (AMISR_Patternadj_Azs [0] [0] ((0:ℝ), (0:ℝ))).getD 0 0 = 0 := by
  have hj : 0 < (([0] : List ℝ).zip ([0] : List ℝ)).length := by norm_num
  have h := patternadj_azimuth_snap_mod [0] [0] ((0:ℝ), (0:ℝ)) 0 hj
  exact ⟨h.2.1, h.2.2 (by norm_num [rotcoords, snapzero, npmod, floatEps])⟩

/-- C9: `Millstone_Pattern_Z` rotates by the fixed offset pair (0, 0) and
never reads the pointing direction or the array-face offset, so any two
calls differing only in `Az0`, `El0` or `Angleoffset` return identical
results, for every kernel and every observation array. -/
theorem millstone_z_ignores_pointing (j : ℝ → ℝ) (Az El : List ℝ)
    (a b u v : ℝ) (c w : ℝ × ℝ) :
    Millstone_Pattern_Z j Az El a b c = Millstone_Pattern_Z j Az El u v w := rfl

/-- C10 counterexample: the claimed possibility never occurs.  The rotation
itself (spec section 4.1) normalizes azimuths into [0, 360), so the rotated
pointing azimuth `Az0s` handed unadjusted to `AMISR_Pattern` is never
negative and never at or above 360 degrees, for every array-face offset and
pointing direction. -/
theorem patternadj_az0_never_out_of_range :
    ¬ ∃ (a : ℝ × ℝ) (az0 el0 : ℝ),
      AMISR_Patternadj_Az0s az0 el0 a < 0 ∨ 360 ≤ AMISR_Patternadj_Az0s az0 el0 a := by
  rintro ⟨a, az0, el0, h⟩
  have hm := npmod_mem_Ico (snapzero (az0 + -a.1)) (by norm_num : (0:ℝ) < 360)
  unfold AMISR_Patternadj_Az0s rotcoords at h
  rcases h with h | h
  · exact absurd h (not_lt.mpr hm.1)
  · exact absurd h (not_le.mpr hm.2)

/-- C10 (amended): the snap and the modulo of lines 115-116 are applied only
to the observation azimuths; the rotated pointing azimuth `Az0s` is
converted to radians and passed to `AMISR_Pattern` unadjusted — but since the
rotation itself returns azimuths normalized into [0, 360), `Az0s` already
lies in [0, 360) degrees. -/
theorem patternadj_az0_unadjusted_range (d : ℝ → ℝ → ℝ) (Az El : List ℝ)
    (az0 el0 : ℝ) (a : ℝ × ℝ) :
    AMISR_Patternadj d Az El az0 el0 a =
      ((AMISR_Patternadj_Azs Az El a).zip (AMISR_Patternadj_Els Az El a)).map
        (fun p => AMISR_Pattern_val d (p.1 * d2r) ((90 - p.2) * d2r)
          (AMISR_Patternadj_Az0s az0 el0 a * d2r)
          ((90 - AMISR_Patternadj_El0s az0 el0 a) * d2r)) ∧
    0 ≤ AMISR_Patternadj_Az0s az0 el0 a ∧ AMISR_Patternadj_Az0s az0 el0 a < 360 := by
  refine ⟨rfl, ?_⟩
  unfold AMISR_Patternadj_Az0s rotcoords
  exact npmod_mem_Ico _ (by norm_num)
